import Mathlib

/-!
Verification development for the gago evolutionary-computation core
(src/ga.go).  The orchestration core (`Topology`, `GA`, `Validate`,
`Initialize`, `Enhance`, `findBest`) is embedded from the source;
collaborators that live in the repository outside src/ (`MakeIndividual`,
`makePopulation`, `Individuals.Evaluate`, `Individuals.Sort`,
`Population.speciate`, `Species.merge`, `makeRandomNumberGenerator`, and
the `GenomeMaker` / `Model` / `Migrator` interfaces) are modelled from the
specification and marked as such.  Go float64 fitness is modelled by `ℚ`
(the ordered fragment the core uses), wall-clock durations by `Nat`
parameters, and Go panics by `Option` results (`none` = panic).
-/

namespace Gago

/-- Random sources (Go `rand.Rand` values): modelled as an abstract seed.
Modelled from the spec: `makeRandomNumberGenerator` (repository code outside
src/) creates a fresh independent stream per worker; here a stream is
identified by the entropy value supplied to the modelled operation. -/
abbrev Rng := Nat

/-- Modelled from the spec: a `GenomeMaker` (interface, outside src/) is a
constructor producing a new genome from a random source. -/
abbrev GenomeMaker (G : Type) := Rng → G

/-- An `Individual` (outside src/, fields from the spec data model): a genome
plus its cached fitness. -/
structure Individual (G : Type) where
  Genome : G
  Fitness : ℚ
deriving DecidableEq

/-- Go `Individuals` slice type. -/
abbrev Individuals (G : Type) := List (Individual G)

/-- A `Population` (outside src/, fields from the spec data model: identity,
individual sequence, age, generation counter). -/
structure Population (G : Type) where
  ID : Int
  Individuals : Individuals G
  Age : Nat
  Generations : Int
deriving DecidableEq

/-- The error values the core can return (`errors.New` values in src/ga.go
and the model-specific validation error), modelled as an inductive type. -/
inductive GagoErr where
  | nPopulationsTooLow
  | nSpeciesNegative
  | nIndividualsTooLow
  | genomeMakerNil
  | modelNil
  | modelInvalid (msg : String)
  | migFrequencyTooLow
deriving DecidableEq

/-- src/ga.go: a `Topology` holds all the information relative to the size
of a GA. -/
structure Topology where
  NPopulations : Int
  NSpecies : Int
  NIndividuals : Int
deriving DecidableEq

/-- src/ga.go lines 19-30: validate the properties of a Topology. -/
def Topology.Validate (topo : Topology) : Option GagoErr :=
  if topo.NPopulations < 1 then some .nPopulationsTooLow
  else if topo.NSpecies < 0 then some .nSpeciesNegative
  else if topo.NIndividuals < 1 then some .nIndividualsTooLow
  else none

/-- Modelled from the spec: a `Model` (interface, outside src/) applies one
generation of evolutionary operators to a collection of individuals, and
carries the result of its own `Validate` method. -/
structure Model (G : Type) where
  Apply : Individuals G → Individuals G
  ValidateErr : Option GagoErr

/-- Modelled from the spec: a `Migrator` (interface, outside src/) moves
individuals between the populations given a random source. -/
structure Migrator (G : Type) where
  Apply : List (Individuals G) → Rng → List (Individuals G)

/-- src/ga.go lines 32-48: a GA contains populations which themselves
contain individuals.  Nil-able Go interface fields are modelled with
`Option`; the logger is fire-and-forget and is modelled by its presence
only. -/
structure GA (G : Type) where
  MakeGenome : Option (GenomeMaker G)
  Topology : Topology
  Model : Option (Model G)
  Migrator : Option (Migrator G)
  MigFrequency : Int
  Logger : Option Unit
  Populations : List (Population G)
  Best : Individual G
  Age : Nat
  Generations : Int
  rng : Rng

variable {G : Type}

/-- src/ga.go lines 52-77: validate the parameters of a GA. -/
def GA.Validate (ga : GA G) : Option GagoErr :=
  match ga.MakeGenome with
  | none => some .genomeMakerNil
  | some _ =>
    match ga.Topology.Validate with
    | some topoErr => some topoErr
    | none =>
      match ga.Model with
      | none => some .modelNil
      | some model =>
        match model.ValidateErr with
        | some modelErr => some modelErr
        | none =>
          if ga.Migrator.isSome ∧ ga.MigFrequency < 1 then some .migFrequencyTooLow
          else none

/-- The loop of src/ga.go lines 84-89: scan each population's first
individual, keeping it whenever it is strictly better than the accumulator;
`none` models the Go panic of indexing an empty individual slice. -/
def bestScan (b : Individual G) : List (Population G) → Option (Individual G)
  | [] => some b
  | pop :: rest =>
    match pop.Individuals with
    | [] => none
    | i :: _ => bestScan (if i.Fitness < b.Fitness then i else b) rest

/-- src/ga.go lines 83-90: `GA.findBest`. -/
def GA.findBest (ga : GA G) : Option (GA G) :=
  (bestScan ga.Best ga.Populations).map fun b => { ga with Best := b }

/-- Modelled from the spec: `Individuals.Evaluate` (outside src/) assigns
every individual the fitness obtained by evaluating its genome; the
evaluation function `eval` stands for the external Genome capability. -/
def Individuals.Evaluate (eval : G → ℚ) (indis : Individuals G) : Individuals G :=
  indis.map fun i => { i with Fitness := eval i.Genome }

/-- Modelled from the spec: `Individuals.Sort` (outside src/) sorts the
individuals in ascending order of fitness. -/
def Individuals.SortAsc (indis : Individuals G) : Individuals G :=
  indis.insertionSort fun a b => a.Fitness ≤ b.Fitness

/-- Modelled from the spec: `MakeIndividual` (outside src/) wraps a genome
into a not-yet-evaluated individual; the spec describes the reference
placeholder fitness as the zero-like uninitialized default, so the sentinel
fitness is 0. -/
def MakeIndividual (g : G) : Individual G := ⟨g, 0⟩

/-- Modelled from the spec: `makePopulation` (outside src/) builds a
population of `n` fresh unevaluated individuals from the genome factory,
drawing successive values from this population's own independent random
stream. -/
def makePopulation (n : Int) (maker : GenomeMaker G) (id : Int) (rng : Rng) : Population G :=
  { ID := id
    Individuals := (List.range n.toNat).map fun i => MakeIndividual (maker (rng + i))
    Age := 0
    Generations := 0 }

/-- Modelled from the spec: `makeRandomNumberGenerator` (outside src/)
returns a fresh independent random stream, identified here by the entropy
the modelled caller supplies. -/
def makeRandomNumberGenerator (entropy : Nat) : Rng := entropy

/-- The per-population worker body of src/ga.go lines 99-112, applied to
every population index: generate a population from the factory, evaluate its
individuals, and sort them. -/
def initPops (topo : Topology) (maker : GenomeMaker G) (eval : G → ℚ)
    (popEntropy : Nat → Nat) : List (Population G) :=
  (List.range topo.NPopulations.toNat).map fun j =>
    let pop := makePopulation topo.NIndividuals maker (Int.ofNat j)
      (makeRandomNumberGenerator (popEntropy j))
    { pop with Individuals := Individuals.SortAsc (Individuals.Evaluate eval pop.Individuals) }

/-- src/ga.go lines 95-119: `GA.Initialize`.  Randomness is supplied through
entropy parameters (one stream per population, one for the GA's own rng, one
for the dummy best genome); `none` models the Go panics (negative population
count in `make`, nil `GenomeMaker`, empty population inside `findBest`). -/
def GA.Initialize (ga : GA G) (eval : G → ℚ) (gaEntropy dummyEntropy : Nat)
    (popEntropy : Nat → Nat) : Option (GA G) :=
  if ga.Topology.NPopulations < 0 then none
  else
    match ga.MakeGenome with
    | none => none
    | some maker =>
      GA.findBest { ga with
        Populations := initPops ga.Topology maker eval popEntropy
        rng := makeRandomNumberGenerator gaEntropy
        Best := MakeIndividual (maker (makeRandomNumberGenerator dummyEntropy)) }

/-- Hand every population's individual sequence to the migrator.  The
population slice itself is fixed by Go slice semantics: only the individual
sequences are rewritten, count and bookkeeping of the populations stay. -/
def Migrator.run (m : Migrator G) (pops : List (Population G)) (rng : Rng) :
    List (Population G) :=
  let migrated := m.Apply (pops.map fun p => p.Individuals) rng
  pops.mapIdx fun j p => { p with Individuals := migrated.getD j p.Individuals }

/-- src/ga.go lines 130-132: the migration gate of `Enhance`, evaluated with
the already-incremented generation counter `g`; the `&&` short-circuits left
to right as in Go, and `none` models the Go division-by-zero panic of
`g % 0`. -/
def GA.migrationInput (ga : GA G) (g : Int) : Option (List (Population G)) :=
  if ga.Topology.NPopulations > 1 then
    match ga.Migrator with
    | some m =>
      if ga.MigFrequency = 0 then none
      else if Int.tmod g ga.MigFrequency = 0 then some (m.run ga.Populations ga.rng)
      else some ga.Populations
    | none => some ga.Populations
  else some ga.Populations

/-- Modelled from the spec: `Population.speciate` (outside src/) partitions
the population's individuals into `n` species; the concrete scheme is a
collaborator detail (any total partition is acceptable per the spec),
modelled here as round-robin assignment by index. -/
def Population.speciate (pop : Population G) (n : Int) : List (Gago.Individuals G) :=
  (List.range n.toNat).map fun k =>
    (pop.Individuals.enum.filter fun p => p.1 % n.toNat == k).map fun p => p.2

/-- Modelled from the spec: `Species.merge` (outside src/) concatenates the
species' individuals back into one sequence. -/
def Species.merge (species : List (Individuals G)) : Individuals G := species.flatten

/-- The per-population worker body of src/ga.go lines 140-160: speciate,
apply the model to each species and merge — or apply the model to the whole
population — then evaluate, sort, and update the population's age and
generation counter. -/
def Population.evolve (model : Model G) (nSpecies : Int) (eval : G → ℚ) (dt : Nat)
    (pop : Population G) : Population G :=
  let indis :=
    if nSpecies > 0 then
      Species.merge ((pop.speciate nSpecies).map fun s => model.Apply s)
    else model.Apply pop.Individuals
  { pop with
    Individuals := Gago.Individuals.SortAsc (Gago.Individuals.Evaluate eval indis)
    Age := pop.Age + dt
    Generations := pop.Generations + 1 }

/-- src/ga.go lines 124-168: `GA.Enhance`.  Elapsed wall-clock time is
abstracted into the parameter `dt`; `none` models the Go panics (nil model,
migration modulo by zero, empty population inside `findBest`). -/
def GA.Enhance (ga : GA G) (eval : G → ℚ) (dt : Nat) : Option (GA G) :=
  match ga.migrationInput (ga.Generations + 1) with
  | none => none
  | some pops =>
    match ga.Model with
    | none => none
    | some model =>
      GA.findBest { ga with
        Generations := ga.Generations + 1
        Populations := pops.map (Population.evolve model ga.Topology.NSpecies eval dt)
        Age := ga.Age + dt }

/-- `n` successive calls to `Enhance`. -/
def GA.EnhanceN (ga : GA G) (eval : G → ℚ) (dt : Nat) : Nat → Option (GA G)
  | 0 => some ga
  | n + 1 => (ga.EnhanceN eval dt n).bind fun g => g.Enhance eval dt

/-- The fitness of a population's first individual (its best once sorted);
0 is returned for an empty population, a case the operations rule out. -/
def firstFitness (pop : Population G) : ℚ :=
  match pop.Individuals with
  | [] => 0
  | i :: _ => i.Fitness

/-- The spec's description of the best-individual scan: the minimum of the
starting fitness `b` and every population's first-individual fitness. -/
def minFirstFitness (pops : List (Population G)) (b : ℚ) : ℚ :=
  pops.foldl (fun acc p => min acc (firstFitness p)) b

/-- A concrete valid evolution model: the identity on individual sequences. -/
def idModel : Model ℚ := { Apply := fun l => l, ValidateErr := none }

/-- A concrete migrator: reverse the list of individual sequences, swapping
the populations' contents. -/
def swapMigrator : Migrator ℚ := { Apply := fun ls _ => ls.reverse }

/-- A concrete GA before initialization: genomes are rational numbers, the
factory returns the drawn random value, two populations of two individuals. -/
def ga0 : GA ℚ :=
  { MakeGenome := some fun r => (r : ℚ)
    Topology := ⟨2, 0, 2⟩
    Model := some idModel
    Migrator := none
    MigFrequency := 1
    Logger := none
    Populations := []
    Best := ⟨0, 0⟩
    Age := 0
    Generations := 0
    rng := 0 }

/-- A concrete evaluated and sorted population. -/
def popA : Population ℚ := ⟨0, [⟨1, 1⟩, ⟨2, 2⟩], 0, 0⟩

/-- A second concrete evaluated and sorted population. -/
def popB : Population ℚ := ⟨1, [⟨3, 3⟩], 0, 0⟩

/-- A concrete initialized GA holding two sorted, evaluated populations. -/
def gaRun : GA ℚ := { ga0 with Populations := [popA, popB], Best := ⟨1, 1⟩ }

/-- `gaRun` with a migrator whose gate fires every generation. -/
def gaMig : GA ℚ := { gaRun with Migrator := some swapMigrator }

/-- `gaMig` with migration frequency zero: a migrator is configured but the
frequency is invalid. -/
def gaMigZero : GA ℚ := { gaMig with MigFrequency := 0 }

/-- A GA whose only individual always evaluates to fitness 5: every first
individual then has positive fitness, so the zero-fitness dummy best
survives the `findBest` scan after `Initialize`. -/
def cexGA : GA ℚ :=
  { MakeGenome := some fun _ => (5 : ℚ)
    Topology := ⟨1, 0, 1⟩
    Model := some idModel
    Migrator := none
    MigFrequency := 1
    Logger := none
    Populations := []
    Best := ⟨0, 0⟩
    Age := 0
    Generations := 0
    rng := 0 }

end Gago

namespace Gago

variable {G : Type}

theorem Topology.Validate_eq_none_iff (topo : Topology) :
    topo.Validate = none ↔
      1 ≤ topo.NPopulations ∧ 0 ≤ topo.NSpecies ∧ 1 ≤ topo.NIndividuals := by
  unfold Topology.Validate
  by_cases h1 : topo.NPopulations < 1 <;> by_cases h2 : topo.NSpecies < 0 <;>
    by_cases h3 : topo.NIndividuals < 1 <;> simp [h1, h2, h3] <;> omega

theorem bestScan_some (pops : List (Population G)) :
    ∀ b : Individual G, (∀ p ∈ pops, p.Individuals ≠ []) →
      ∃ b', bestScan b pops = some b' := by
  induction pops with
  | nil => exact fun b _ => ⟨b, rfl⟩
  | cons pop rest ih =>
    intro b h
    have hpop := h pop (List.mem_cons_self _ _)
    cases hp : pop.Individuals with
    | nil => exact absurd hp hpop
    | cons i tl =>
      obtain ⟨b', hb'⟩ := ih (if i.Fitness < b.Fitness then i else b)
        (fun p hp2 => h p (List.mem_cons_of_mem _ hp2))
      exact ⟨b', by simp only [bestScan, hp]; exact hb'⟩

theorem bestScan_eq_or_lt (pops : List (Population G)) :
    ∀ b b' : Individual G, bestScan b pops = some b' →
      b' = b ∨ b'.Fitness < b.Fitness := by
  induction pops with
  | nil =>
    intro b b' h
    simp only [bestScan, Option.some.injEq] at h
    exact Or.inl h.symm
  | cons pop rest ih =>
    intro b b' h
    cases hp : pop.Individuals with
    | nil => simp [bestScan, hp] at h
    | cons i tl =>
      simp only [bestScan, hp] at h
      by_cases hlt : i.Fitness < b.Fitness
      · rw [if_pos hlt] at h
        rcases ih i b' h with h1 | h1
        · exact Or.inr (h1 ▸ hlt)
        · exact Or.inr (h1.trans hlt)
      · rw [if_neg hlt] at h
        exact ih b b' h

theorem bestScan_fitness (pops : List (Population G)) :
    ∀ b b' : Individual G, bestScan b pops = some b' →
      b'.Fitness = minFirstFitness pops b.Fitness := by
  induction pops with
  | nil =>
    intro b b' h
    simp only [bestScan, Option.some.injEq] at h
    simp [minFirstFitness, ← h]
  | cons pop rest ih =>
    intro b b' h
    cases hp : pop.Individuals with
    | nil => simp [bestScan, hp] at h
    | cons i tl =>
      simp only [bestScan, hp] at h
      have hrec := ih _ _ h
      have hf : firstFitness pop = i.Fitness := by simp [firstFitness, hp]
      have hx : (if i.Fitness < b.Fitness then i else b).Fitness =
          min b.Fitness (firstFitness pop) := by
        rw [hf]
        by_cases hlt : i.Fitness < b.Fitness
        · rw [if_pos hlt, min_eq_right hlt.le]
        · rw [if_neg hlt, min_eq_left (le_of_not_lt hlt)]
      rw [hrec]
      simp only [minFirstFitness, List.foldl_cons]
      rw [hx]

theorem minFirstFitness_le_init (pops : List (Population G)) :
    ∀ b : ℚ, minFirstFitness pops b ≤ b := by
  induction pops with
  | nil => intro b; simp [minFirstFitness]
  | cons pop rest ih =>
    intro b
    exact le_trans (ih (min b (firstFitness pop))) (min_le_left _ _)

theorem minFirstFitness_le (pops : List (Population G)) :
    ∀ b : ℚ, ∀ p ∈ pops, minFirstFitness pops b ≤ firstFitness p := by
  induction pops with
  | nil => intro b p hp; cases hp
  | cons pop rest ih =>
    intro b p hp
    rcases List.mem_cons.mp hp with rfl | hp2
    · exact le_trans (minFirstFitness_le_init rest (min b (firstFitness p)))
        (min_le_right _ _)
    · exact ih (min b (firstFitness pop)) p hp2

theorem minFirstFitness_cases (pops : List (Population G)) :
    ∀ b : ℚ, minFirstFitness pops b = b ∨
      ∃ p ∈ pops, minFirstFitness pops b = firstFitness p := by
  induction pops with
  | nil => intro b; exact Or.inl rfl
  | cons pop rest ih =>
    intro b
    have hstep : minFirstFitness (pop :: rest) b =
        minFirstFitness rest (min b (firstFitness pop)) := rfl
    rcases ih (min b (firstFitness pop)) with h | ⟨p, hp, h⟩
    · rcases min_cases b (firstFitness pop) with ⟨he, _⟩ | ⟨he, _⟩
      · exact Or.inl (by rw [hstep, h, he])
      · exact Or.inr ⟨pop, List.mem_cons_self _ _, by rw [hstep, h, he]⟩
    · exact Or.inr ⟨p, List.mem_cons_of_mem _ hp, by rw [hstep, h]⟩

instance : IsTotal (Individual G) fun a b => a.Fitness ≤ b.Fitness :=
  ⟨fun a b => le_total a.Fitness b.Fitness⟩

instance : IsTrans (Individual G) fun a b => a.Fitness ≤ b.Fitness :=
  ⟨fun _ _ _ hab hbc => le_trans hab hbc⟩

theorem SortAsc_sorted (indis : Individuals G) :
    List.Pairwise (fun a b : Individual G => a.Fitness ≤ b.Fitness)
      (Individuals.SortAsc indis) :=
  List.sorted_insertionSort _ indis

theorem SortAsc_perm (indis : Individuals G) :
    (Individuals.SortAsc indis).Perm indis :=
  List.perm_insertionSort _ indis

theorem SortAsc_length (indis : Individuals G) :
    (Individuals.SortAsc indis).length = indis.length :=
  (SortAsc_perm indis).length_eq

theorem SortAsc_mem (indis : Individuals G) (x : Individual G) :
    x ∈ Individuals.SortAsc indis ↔ x ∈ indis :=
  (SortAsc_perm indis).mem_iff

theorem Evaluate_length (eval : G → ℚ) (indis : Individuals G) :
    (Individuals.Evaluate eval indis).length = indis.length := by
  simp [Individuals.Evaluate]

theorem Evaluate_fitness (eval : G → ℚ) (indis : Individuals G) :
    ∀ x ∈ Individuals.Evaluate eval indis, x.Fitness = eval x.Genome := by
  intro x hx
  simp only [Individuals.Evaluate, List.mem_map] at hx
  obtain ⟨i, _, rfl⟩ := hx
  rfl

theorem first_le_of_sorted (p : Population G)
    (h : List.Pairwise (fun a b : Individual G => a.Fitness ≤ b.Fitness)
      p.Individuals) :
    ∀ x ∈ p.Individuals, firstFitness p ≤ x.Fitness := by
  intro x hx
  rcases hp : p.Individuals with _ | ⟨i, tl⟩
  · rw [hp] at hx; cases hx
  · rw [hp] at hx h
    have hfst : firstFitness p = i.Fitness := by simp [firstFitness, hp]
    rcases List.mem_cons.mp hx with rfl | hx2
    · exact le_of_eq hfst
    · exact hfst ▸ (List.pairwise_cons.mp h).1 x hx2

theorem sum_map_add (l : List ℕ) (a b : ℕ → ℕ) :
    (l.map fun k => a k + b k).sum = (l.map a).sum + (l.map b).sum := by
  induction l with
  | nil => rfl
  | cons x xs ih =>
    simp only [List.map_cons, List.sum_cons, ih]
    omega

theorem sum_map_indicator (j : ℕ) :
    ∀ n : ℕ, j < n →
      ((List.range n).map fun k => if j = k then 1 else 0).sum = 1 := by
  intro n
  induction n with
  | zero => omega
  | succ n ih =>
    intro hj
    rw [List.range_succ, List.map_append, List.sum_append]
    rcases Nat.lt_or_ge j n with h | h
    · have hlast : ((List.map (fun k => if j = k then 1 else 0) [n]).sum = 0) := by
        simp [Nat.ne_of_lt h]
      rw [ih h, hlast]
    · have hj' : j = n := by omega
      subst hj'
      have h0 : ((List.range j).map fun k => if j = k then 1 else 0).sum = 0 := by
        apply List.sum_eq_zero
        intro x hx
        simp only [List.mem_map, List.mem_range] at hx
        obtain ⟨k, hk, rfl⟩ := hx
        simp [Nat.ne_of_gt hk]
      simp [h0]

theorem length_flatten_partition {α : Type} (g : α → ℕ) :
    ∀ (l : List α) (n : ℕ), (∀ x ∈ l, g x < n) →
      (((List.range n).map fun k => l.filter fun x => g x == k).flatten).length
        = l.length := by
  intro l
  induction l with
  | nil => intro n _; simp
  | cons x xs ih =>
    intro n hg
    have hx : g x < n := hg x (List.mem_cons_self _ _)
    have hxs : ∀ y ∈ xs, g y < n := fun y hy => hg y (List.mem_cons_of_mem _ hy)
    rw [List.length_flatten, List.map_map]
    have hpt : ∀ k ∈ List.range n,
        (List.length ∘ fun k => (x :: xs).filter fun y => g y == k) k =
          (fun k => (if g x = k then 1 else 0) +
            ((xs.filter fun y => g y == k)).length) k := by
      intro k _
      simp only [Function.comp_apply, List.filter_cons]
      by_cases h : g x = k
      · simp [h, Nat.add_comm]
      · simp [h]
    rw [List.map_congr_left hpt, sum_map_add, sum_map_indicator (g x) n hx]
    have hrec := ih n hxs
    rw [List.length_flatten, List.map_map] at hrec
    simp only [Function.comp_def] at hrec
    rw [hrec]
    simp [Nat.add_comm]

theorem speciate_count (pop : Population G) (n : Int) :
    (pop.speciate n).length = n.toNat := by
  simp [Population.speciate]

theorem speciate_total_length (pop : Population G) (n : Int) (hn : 0 < n) :
    ((pop.speciate n).map List.length).sum = pop.Individuals.length := by
  unfold Population.speciate
  rw [List.map_map]
  have hnn : 0 < n.toNat := by omega
  have hpart := length_flatten_partition (fun p : ℕ × Individual G => p.1 % n.toNat)
    pop.Individuals.enum n.toNat (fun x _ => Nat.mod_lt _ hnn)
  rw [List.length_flatten, List.map_map] at hpart
  simp only [Function.comp_def] at hpart ⊢
  simp only [List.length_map]
  rw [hpart, List.enum_length]

theorem merge_speciate_length (pop : Population G) (n : Int) (hn : 0 < n)
    (model : Model G) (hmodel : ∀ l, (model.Apply l).length = l.length) :
    (Species.merge ((pop.speciate n).map model.Apply)).length
      = pop.Individuals.length := by
  unfold Species.merge
  rw [List.length_flatten, List.map_map]
  have hcong : ∀ s ∈ pop.speciate n,
      (List.length ∘ model.Apply) s = List.length s := fun s _ => hmodel s
  rw [List.map_congr_left hcong, speciate_total_length pop n hn]

theorem evolve_length (model : Model G) (n : Int) (eval : G → ℚ) (dt : Nat)
    (pop : Population G) (hmodel : ∀ l, (model.Apply l).length = l.length) :
    (Population.evolve model n eval dt pop).Individuals.length
      = pop.Individuals.length := by
  unfold Population.evolve
  by_cases hn : 0 < n
  · simp only [if_pos hn]
    rw [SortAsc_length, Evaluate_length, merge_speciate_length pop n hn model hmodel]
  · simp only [if_neg hn]
    rw [SortAsc_length, Evaluate_length, hmodel]

theorem evolve_sorted (model : Model G) (n : Int) (eval : G → ℚ) (dt : Nat)
    (pop : Population G) :
    List.Pairwise (fun a b : Individual G => a.Fitness ≤ b.Fitness)
      (Population.evolve model n eval dt pop).Individuals :=
  SortAsc_sorted _

theorem evolve_evaluated (model : Model G) (n : Int) (eval : G → ℚ) (dt : Nat)
    (pop : Population G) :
    ∀ x ∈ (Population.evolve model n eval dt pop).Individuals,
      x.Fitness = eval x.Genome := by
  intro x hx
  unfold Population.evolve at hx
  exact Evaluate_fitness eval _ x ((SortAsc_mem _ x).mp hx)

theorem evolve_generations (model : Model G) (n : Int) (eval : G → ℚ) (dt : Nat)
    (pop : Population G) :
    (Population.evolve model n eval dt pop).Generations = pop.Generations + 1 :=
  rfl

theorem run_generations (m : Migrator G) (pops : List (Population G)) (rng : Rng) :
    (m.run pops rng).map (fun p => p.Generations) =
      pops.map fun p => p.Generations := by
  unfold Migrator.run
  rw [List.mapIdx_eq_enum_map, List.map_map]
  have hfun : ((fun p : Population G => p.Generations) ∘
      Function.uncurry fun j p =>
        { p with Individuals :=
            ((m.Apply (pops.map fun p => p.Individuals) rng).getD j p.Individuals) }) =
      (fun p : Population G => p.Generations) ∘ Prod.snd := by
    funext q
    rfl
  rw [hfun, ← List.map_map, List.enum_map_snd]

theorem findBest_some (ga ga' : GA G) (h : ga.findBest = some ga') :
    ∃ b, bestScan ga.Best ga.Populations = some b ∧
      ga' = { ga with Best := b } := by
  unfold GA.findBest at h
  cases hb : bestScan ga.Best ga.Populations with
  | none => rw [hb] at h; cases h
  | some b =>
    rw [hb] at h
    simp only [Option.map_some', Option.some.injEq] at h
    exact ⟨b, rfl, h.symm⟩

theorem Initialize_some (ga ga' : GA G) (eval : G → ℚ) (g0 g1 : Nat)
    (pe : Nat → Nat) (h : ga.Initialize eval g0 g1 pe = some ga') :
    ∃ maker b,
      ga.MakeGenome = some maker ∧
      0 ≤ ga.Topology.NPopulations ∧
      bestScan (MakeIndividual (maker (makeRandomNumberGenerator g1)))
        (initPops ga.Topology maker eval pe) = some b ∧
      ga' = { ga with
        Populations := initPops ga.Topology maker eval pe
        rng := makeRandomNumberGenerator g0
        Best := b } := by
  unfold GA.Initialize at h
  by_cases hneg : ga.Topology.NPopulations < 0
  · rw [if_pos hneg] at h; cases h
  · rw [if_neg hneg] at h
    cases hmk : ga.MakeGenome with
    | none => rw [hmk] at h; cases h
    | some maker =>
      rw [hmk] at h
      obtain ⟨b, hb, hga'⟩ := findBest_some _ _ h
      exact ⟨maker, b, rfl, by omega, hb, hga'⟩

theorem Enhance_some (ga ga' : GA G) (eval : G → ℚ) (dt : Nat)
    (h : ga.Enhance eval dt = some ga') :
    ∃ pops model b,
      ga.migrationInput (ga.Generations + 1) = some pops ∧
      ga.Model = some model ∧
      bestScan ga.Best
        (pops.map (Population.evolve model ga.Topology.NSpecies eval dt)) = some b ∧
      ga' = { ga with
        Generations := ga.Generations + 1
        Populations := pops.map (Population.evolve model ga.Topology.NSpecies eval dt)
        Age := ga.Age + dt
        Best := b } := by
  unfold GA.Enhance at h
  cases hmi : ga.migrationInput (ga.Generations + 1) with
  | none => rw [hmi] at h; cases h
  | some pops =>
    rw [hmi] at h
    cases hm : ga.Model with
    | none => rw [hm] at h; cases h
    | some model =>
      rw [hm] at h
      obtain ⟨b, hb, hga'⟩ := findBest_some _ _ h
      exact ⟨pops, model, b, rfl, rfl, hb, hga'⟩

theorem migrationInput_generations (ga : GA G) (g : Int)
    (pops : List (Population G)) (h : ga.migrationInput g = some pops) :
    pops.map (fun p => p.Generations) =
      ga.Populations.map fun p => p.Generations := by
  unfold GA.migrationInput at h
  split at h
  · split at h
    · split at h
      · cases h
      · split at h
        · cases h
          exact run_generations _ ga.Populations ga.rng
        · cases h
          rfl
    · cases h
      rfl
  · cases h
    rfl

theorem initPops_props (topo : Topology) (maker : GenomeMaker G) (eval : G → ℚ)
    (pe : Nat → Nat) :
    (initPops topo maker eval pe).length = topo.NPopulations.toNat ∧
    ∀ p ∈ initPops topo maker eval pe,
      p.Generations = 0 ∧
      p.Individuals.length = topo.NIndividuals.toNat ∧
      List.Pairwise (fun a b : Individual G => a.Fitness ≤ b.Fitness) p.Individuals ∧
      ∀ x ∈ p.Individuals, x.Fitness = eval x.Genome := by
  constructor
  · simp [initPops]
  · intro p hp
    simp only [initPops, List.mem_map, List.mem_range] at hp
    obtain ⟨j, hj, rfl⟩ := hp
    refine ⟨rfl, ?_, SortAsc_sorted _,
      fun x hx => Evaluate_fitness _ _ x ((SortAsc_mem _ x).mp hx)⟩
    rw [SortAsc_length, Evaluate_length]
    simp [makePopulation]

theorem migrationInput_eq_of (ga : GA G) (g : Int) (m : Migrator G)
    (hm : ga.Migrator = some m) (hp : 1 < ga.Topology.NPopulations)
    (h0 : ga.MigFrequency ≠ 0) (hmod : Int.tmod g ga.MigFrequency = 0) :
    ga.migrationInput g = some (m.run ga.Populations ga.rng) := by
  unfold GA.migrationInput
  rw [if_pos hp, hm]
  show (if ga.MigFrequency = 0 then none
    else if Int.tmod g ga.MigFrequency = 0 then some (m.run ga.Populations ga.rng)
    else some ga.Populations) = some (m.run ga.Populations ga.rng)
  rw [if_neg h0, if_pos hmod]

theorem migrationInput_div_zero (ga : GA G) (g : Int) (m : Migrator G)
    (hm : ga.Migrator = some m) (hp : 1 < ga.Topology.NPopulations)
    (h0 : ga.MigFrequency = 0) : ga.migrationInput g = none := by
  unfold GA.migrationInput
  rw [if_pos hp, hm]
  show (if ga.MigFrequency = 0 then none
    else if Int.tmod g ga.MigFrequency = 0 then some (m.run ga.Populations ga.rng)
    else some ga.Populations) = none
  rw [if_pos h0]

theorem migrationInput_skip (ga : GA G) (g : Int)
    (h : ga.Migrator = none ∨ ¬1 < ga.Topology.NPopulations ∨
      (ga.MigFrequency ≠ 0 ∧ Int.tmod g ga.MigFrequency ≠ 0)) :
    ga.migrationInput g = some ga.Populations := by
  unfold GA.migrationInput
  rcases h with h | h | ⟨h0, hmod⟩
  · by_cases hp : 1 < ga.Topology.NPopulations
    · rw [if_pos hp, h]
    · rw [if_neg hp]
  · rw [if_neg h]
  · by_cases hp : 1 < ga.Topology.NPopulations
    · cases hm : ga.Migrator with
      | none => rw [if_pos hp]
      | some m =>
        rw [if_pos hp]
        show (if ga.MigFrequency = 0 then none
          else if Int.tmod g ga.MigFrequency = 0 then some (m.run ga.Populations ga.rng)
          else some ga.Populations) = some ga.Populations
        rw [if_neg h0, if_neg hmod]
    · rw [if_neg hp]

theorem Initialize_eq (ga : GA G) (eval : G → ℚ) (g0 g1 : Nat) (pe : Nat → Nat)
    (maker : GenomeMaker G) (b : Individual G)
    (hmk : ga.MakeGenome = some maker) (hnn : 0 ≤ ga.Topology.NPopulations)
    (hb : bestScan (MakeIndividual (maker (makeRandomNumberGenerator g1)))
      (initPops ga.Topology maker eval pe) = some b) :
    ga.Initialize eval g0 g1 pe = some { ga with
      Populations := initPops ga.Topology maker eval pe
      rng := makeRandomNumberGenerator g0
      Best := b } := by
  unfold GA.Initialize GA.findBest
  rw [if_neg (by omega), hmk]
  dsimp only
  rw [hb]
  rfl

theorem Enhance_generations_step (ga ga' : GA G) (eval : G → ℚ) (dt : Nat)
    (h : ga.Enhance eval dt = some ga') :
    ga'.Generations = ga.Generations + 1 ∧
    ga'.Populations.map (fun p => p.Generations) =
      ga.Populations.map fun p => p.Generations + 1 := by
  obtain ⟨pops, model, b, hmi, hm, hb, rfl⟩ := Enhance_some ga ga' eval dt h
  refine ⟨rfl, ?_⟩
  have hmg := migrationInput_generations ga _ pops hmi
  show (pops.map (Population.evolve model ga.Topology.NSpecies eval dt)).map
      (fun p => p.Generations) = ga.Populations.map fun p => p.Generations + 1
  rw [List.map_map]
  have hcomp : ((fun p : Population G => p.Generations) ∘
      Population.evolve model ga.Topology.NSpecies eval dt) =
      fun p : Population G => p.Generations + 1 := by
    funext p
    rfl
  rw [hcomp]
  have h2 : (fun p : Population G => p.Generations + 1) =
      (fun z : Int => z + 1) ∘ fun p : Population G => p.Generations := rfl
  rw [h2, ← List.map_map, hmg, List.map_map]

theorem EnhanceN_lockstep_aux (eval : G → ℚ) (dt : Nat) :
    ∀ (n : Nat) (g gN : GA G),
      g.EnhanceN eval dt n = some gN →
      (∀ p ∈ g.Populations, p.Generations = g.Generations) →
      gN.Generations = g.Generations + (n : Int) ∧
      ∀ p ∈ gN.Populations, p.Generations = gN.Generations := by
  intro n
  induction n with
  | zero =>
    intro g gN h hInv
    obtain rfl := Option.some.inj h
    exact ⟨by simp, hInv⟩
  | succ n ih =>
    intro g gN h hInv
    simp only [GA.EnhanceN] at h
    obtain ⟨g1, hg1, hstep⟩ := Option.bind_eq_some.mp h
    obtain ⟨ihGen, ihInv⟩ := ih g g1 hg1 hInv
    obtain ⟨hsGen, hsMap⟩ := Enhance_generations_step g1 gN eval dt hstep
    constructor
    · rw [hsGen, ihGen]
      push_cast
      ring
    · intro p hp
      have hmem : p.Generations ∈ gN.Populations.map fun p => p.Generations :=
        List.mem_map_of_mem _ hp
      rw [hsMap] at hmem
      obtain ⟨q, hq, heq⟩ := List.mem_map.mp hmem
      rw [← heq, ihInv q hq, hsGen]

/-- Claim C6: `Topology.Validate` returns an error exactly when
`NPopulations < 1`, `NSpecies < 0`, or `NIndividuals < 1`; in particular it
rejects the topology (0, 0, 1) and accepts (1, 0, 1), zero species being
legal. -/
theorem topology_validate_spec :
    (∀ topo : Topology, (topo.Validate).isSome = true ↔
      (topo.NPopulations < 1 ∨ topo.NSpecies < 0 ∨ topo.NIndividuals < 1)) ∧
    (Topology.Validate ⟨0, 0, 1⟩).isSome = true ∧
    Topology.Validate ⟨1, 0, 1⟩ = none := by
  refine ⟨fun topo => ?_, by decide, by decide⟩
  have h := Topology.Validate_eq_none_iff topo
  constructor
  · intro hs
    by_contra hc
    push_neg at hc
    rw [h.mpr (by omega)] at hs
    cases hs
  · intro hd
    cases hv : topo.Validate with
    | some e => rfl
    | none =>
      have := h.mp hv
      omega

/-- Claim C7: `GA.Validate` performs its checks in a fixed order, returning
the error of the first violated check: GenomeMaker non-nil, then Topology,
then Model non-nil, then the model's own validation, then (when a migrator
is configured) `MigFrequency ≥ 1`; and it returns nil when all checks
pass. -/
theorem ga_validate_spec :
    ∀ ga : GA G,
      (ga.MakeGenome = none → ga.Validate = some GagoErr.genomeMakerNil) ∧
      (∀ e, ga.MakeGenome ≠ none → ga.Topology.Validate = some e →
        ga.Validate = some e) ∧
      (ga.MakeGenome ≠ none → ga.Topology.Validate = none → ga.Model = none →
        ga.Validate = some GagoErr.modelNil) ∧
      (∀ m e, ga.MakeGenome ≠ none → ga.Topology.Validate = none →
        ga.Model = some m → m.ValidateErr = some e → ga.Validate = some e) ∧
      (∀ m, ga.MakeGenome ≠ none → ga.Topology.Validate = none →
        ga.Model = some m → m.ValidateErr = none → ga.Migrator ≠ none →
        ga.MigFrequency < 1 → ga.Validate = some GagoErr.migFrequencyTooLow) ∧
      (∀ m, ga.MakeGenome ≠ none → ga.Topology.Validate = none →
        ga.Model = some m → m.ValidateErr = none →
        (ga.Migrator = none ∨ 1 ≤ ga.MigFrequency) → ga.Validate = none) := by
  intro ga
  refine ⟨?_, ?_, ?_, ?_, ?_, ?_⟩
  · intro h
    simp only [GA.Validate, h]
  · intro e h1 h2
    obtain ⟨mk, hmk⟩ := Option.ne_none_iff_exists'.mp h1
    simp only [GA.Validate, hmk, h2]
  · intro h1 h2 h3
    obtain ⟨mk, hmk⟩ := Option.ne_none_iff_exists'.mp h1
    simp only [GA.Validate, hmk, h2, h3]
  · intro m e h1 h2 h3 h4
    obtain ⟨mk, hmk⟩ := Option.ne_none_iff_exists'.mp h1
    simp only [GA.Validate, hmk, h2, h3, h4]
  · intro m h1 h2 h3 h4 h5 h6
    obtain ⟨mk, hmk⟩ := Option.ne_none_iff_exists'.mp h1
    obtain ⟨mig, hmig⟩ := Option.ne_none_iff_exists'.mp h5
    simp only [GA.Validate, hmk, h2, h3, h4, hmig, Option.isSome_some, true_and]
    rw [if_pos h6]
  · intro m h1 h2 h3 h4 h5
    obtain ⟨mk, hmk⟩ := Option.ne_none_iff_exists'.mp h1
    simp only [GA.Validate, hmk, h2, h3, h4]
    rw [if_neg ?_]
    rintro ⟨hsome, hlt⟩
    rcases h5 with h5 | h5
    · rw [h5] at hsome
      cases hsome
    · omega

/-- Witness for claim C7: a concrete GA with a migrator configured and
`MigFrequency = 0` is rejected with the migration-frequency error. -/
theorem ga_validate_spec_witness :
    gaMigZero.Validate = some GagoErr.migFrequencyTooLow :=
  (ga_validate_spec gaMigZero).2.2.2.2.1 idModel
    (Option.some_ne_none _) (by decide) rfl rfl (Option.some_ne_none _) (by decide)

/-- Claim C2: across any `Enhance` call the best fitness never increases,
and the best individual is only replaced by one of strictly lower fitness;
applied along any sequence of calls this makes `Best.Fitness`
non-increasing. -/
theorem enhance_best_monotone :
    ∀ (ga ga' : GA G) (eval : G → ℚ) (dt : Nat),
      ga.Enhance eval dt = some ga' →
      ga'.Best.Fitness ≤ ga.Best.Fitness ∧
      (ga'.Best = ga.Best ∨ ga'.Best.Fitness < ga.Best.Fitness) := by
  intro ga ga' eval dt h
  obtain ⟨pops, model, b, hmi, hm, hb, rfl⟩ := Enhance_some ga ga' eval dt h
  have h2 := bestScan_eq_or_lt _ _ _ hb
  constructor
  · rcases h2 with rfl | hlt
    · exact le_refl _
    · exact hlt.le
  · exact h2

/-- Witness for claim C2: a concrete `Enhance` step whose best fitness does
not increase. -/
theorem enhance_best_monotone_witness :
    ∃ ga', gaRun.Enhance (fun q => q) 1 = some ga' ∧
      ga'.Best.Fitness ≤ gaRun.Best.Fitness := by
  have hs : (gaRun.Enhance (fun q => q) 1).isSome = true := by decide
  obtain ⟨ga', h⟩ := Option.isSome_iff_exists.mp hs
  exact ⟨ga', h, (enhance_best_monotone gaRun ga' (fun q => q) 1 h).1⟩

/-- Claim C4: after `Initialize` or `Enhance` returns, every population's
individual sequence is sorted in ascending order of fitness (adjacent pairs
are ordered), and the first individual's fitness is minimal. -/
theorem populations_sorted :
    (∀ (ga ga' : GA G) (eval : G → ℚ) (g0 g1 : Nat) (pe : Nat → Nat),
      ga.Initialize eval g0 g1 pe = some ga' →
      ∀ p ∈ ga'.Populations,
        List.Chain' (fun a b : Individual G => a.Fitness ≤ b.Fitness) p.Individuals ∧
        ∀ x ∈ p.Individuals, firstFitness p ≤ x.Fitness) ∧
    (∀ (ga ga' : GA G) (eval : G → ℚ) (dt : Nat),
      ga.Enhance eval dt = some ga' →
      ∀ p ∈ ga'.Populations,
        List.Chain' (fun a b : Individual G => a.Fitness ≤ b.Fitness) p.Individuals ∧
        ∀ x ∈ p.Individuals, firstFitness p ≤ x.Fitness) := by
  constructor
  · intro ga ga' eval g0 g1 pe h p hp
    obtain ⟨maker, b, hmk, hnn, hb, rfl⟩ := Initialize_some ga ga' eval g0 g1 pe h
    have hp' : p ∈ initPops ga.Topology maker eval pe := hp
    have hsorted := ((initPops_props ga.Topology maker eval pe).2 p hp').2.2.1
    exact ⟨hsorted.chain', first_le_of_sorted p hsorted⟩
  · intro ga ga' eval dt h p hp
    obtain ⟨pops, model, b, hmi, hm, hb, rfl⟩ := Enhance_some ga ga' eval dt h
    have hp' : p ∈ pops.map (Population.evolve model ga.Topology.NSpecies eval dt) := hp
    obtain ⟨q, hq, rfl⟩ := List.mem_map.mp hp'
    have hsorted := evolve_sorted model ga.Topology.NSpecies eval dt q
    exact ⟨hsorted.chain', first_le_of_sorted _ hsorted⟩

/-- Witness for claim C4: a concrete `Initialize` whose populations are all
sorted by fitness. -/
theorem populations_sorted_witness :
    ∃ ga', ga0.Initialize (fun q => q) 0 0 (fun j => j) = some ga' ∧
      ∀ p ∈ ga'.Populations,
        List.Chain' (fun a b : Individual ℚ => a.Fitness ≤ b.Fitness) p.Individuals := by
  have hs : (ga0.Initialize (fun q => q) 0 0 fun j => j).isSome = true := by decide
  obtain ⟨ga', h⟩ := Option.isSome_iff_exists.mp hs
  exact ⟨ga', h, fun p hp =>
    ((populations_sorted (G := ℚ)).1 ga0 ga' (fun q => q) 0 0 (fun j => j) h p hp).1⟩

/-- Claim C10: `Initialize` overwrites only the populations, the best
individual, and the internal random source; the generation counter and the
accumulated age (and all configuration fields) are untouched, so an
`Enhance` after a re-`Initialize` keeps counting generations from the
pre-existing value. -/
theorem initialize_frame :
    ∀ (ga ga' : GA G) (eval : G → ℚ) (g0 g1 : Nat) (pe : Nat → Nat),
      ga.Initialize eval g0 g1 pe = some ga' →
      ga'.Generations = ga.Generations ∧ ga'.Age = ga.Age ∧
      ga'.MakeGenome = ga.MakeGenome ∧ ga'.Topology = ga.Topology ∧
      ga'.Model = ga.Model ∧ ga'.Migrator = ga.Migrator ∧
      ga'.MigFrequency = ga.MigFrequency ∧ ga'.Logger = ga.Logger ∧
      ∀ (ga'' : GA G) (eval2 : G → ℚ) (dt : Nat),
        ga'.Enhance eval2 dt = some ga'' →
        ga''.Generations = ga.Generations + 1 := by
  intro ga ga' eval g0 g1 pe h
  obtain ⟨maker, b, hmk, hnn, hb, rfl⟩ := Initialize_some ga ga' eval g0 g1 pe h
  refine ⟨rfl, rfl, rfl, rfl, rfl, rfl, rfl, rfl, ?_⟩
  intro ga'' eval2 dt h2
  obtain ⟨pops, model, b2, hmi, hm, hb2, rfl⟩ := Enhance_some _ ga'' eval2 dt h2
  rfl

/-- Witness for claim C10: re-initializing a concrete GA leaves its
generation counter untouched. -/
theorem initialize_frame_witness :
    ∃ ga', gaRun.Initialize (fun q => q) 0 0 (fun j => j) = some ga' ∧
      ga'.Generations = gaRun.Generations ∧ ga'.Age = gaRun.Age := by
  have hs : (gaRun.Initialize (fun q => q) 0 0 fun j => j).isSome = true := by decide
  obtain ⟨ga', h⟩ := Option.isSome_iff_exists.mp hs
  have hf := initialize_frame gaRun ga' (fun q => q) 0 0 (fun j => j) h
  exact ⟨ga', h, hf.1, hf.2.1⟩

/-- Claim C5: during `Enhance` the migrator runs (once, before any
per-population evolution, on the pre-evolution populations) exactly when
there is more than one population, a migrator is configured, and the
incremented generation counter is divisible by `MigFrequency`; otherwise the
populations evolve unmigrated. -/
theorem enhance_migration_gate :
    ∀ (ga ga' : GA G) (eval : G → ℚ) (dt : Nat) (model : Model G),
      ga.Model = some model →
      ga.Enhance eval dt = some ga' →
      (∀ m : Migrator G, ga.Migrator = some m → 1 < ga.Topology.NPopulations →
        Int.tmod (ga.Generations + 1) ga.MigFrequency = 0 →
        ga'.Populations = (m.run ga.Populations ga.rng).map
          (Population.evolve model ga.Topology.NSpecies eval dt)) ∧
      ((ga.Migrator = none ∨ ¬1 < ga.Topology.NPopulations ∨
          Int.tmod (ga.Generations + 1) ga.MigFrequency ≠ 0) →
        ga'.Populations = ga.Populations.map
          (Population.evolve model ga.Topology.NSpecies eval dt)) := by
  intro ga ga' eval dt model hmodel h
  obtain ⟨pops, model2, b, hmi, hm2, hb, rfl⟩ := Enhance_some ga ga' eval dt h
  rw [hmodel] at hm2
  obtain rfl := Option.some.inj hm2
  constructor
  · intro m hm hp hmod
    by_cases h0 : ga.MigFrequency = 0
    · rw [migrationInput_div_zero ga _ m hm hp h0] at hmi
      cases hmi
    · rw [migrationInput_eq_of ga _ m hm hp h0 hmod] at hmi
      obtain rfl := Option.some.inj hmi
      rfl
  · intro hcase
    rcases hcase with hc | hc | hc
    · rw [migrationInput_skip ga _ (Or.inl hc)] at hmi
      obtain rfl := Option.some.inj hmi
      rfl
    · rw [migrationInput_skip ga _ (Or.inr (Or.inl hc))] at hmi
      obtain rfl := Option.some.inj hmi
      rfl
    · by_cases hp : 1 < ga.Topology.NPopulations
      · cases hmig : ga.Migrator with
        | none =>
          rw [migrationInput_skip ga _ (Or.inl hmig)] at hmi
          obtain rfl := Option.some.inj hmi
          rfl
        | some m =>
          by_cases h0 : ga.MigFrequency = 0
          · rw [migrationInput_div_zero ga _ m hmig hp h0] at hmi
            cases hmi
          · rw [migrationInput_skip ga _ (Or.inr (Or.inr ⟨h0, hc⟩))] at hmi
            obtain rfl := Option.some.inj hmi
            rfl
      · rw [migrationInput_skip ga _ (Or.inr (Or.inl hp))] at hmi
        obtain rfl := Option.some.inj hmi
        rfl

/-- Witness for claim C5: with two populations, a configured migrator and a
firing gate, `Enhance` evolves the migrated populations. -/
theorem enhance_migration_gate_witness :
    ∃ ga', gaMig.Enhance (fun q => q) 1 = some ga' ∧
      ga'.Populations = (swapMigrator.run gaMig.Populations gaMig.rng).map
        (Population.evolve idModel gaMig.Topology.NSpecies (fun q => q) 1) := by
  have hs : (gaMig.Enhance (fun q => q) 1).isSome = true := by decide
  obtain ⟨ga', h⟩ := Option.isSome_iff_exists.mp hs
  exact ⟨ga', h,
    (enhance_migration_gate gaMig ga' (fun q => q) 1 idModel rfl h).1
      swapMigrator rfl (by decide) (by decide)⟩

/-- Claim C8: inside `Enhance`, each population with `NSpecies > 0` goes
through a speciate, per-species model application, and merge cycle that
keeps the total individual count unchanged whenever the model itself does
not resize; with `NSpecies = 0` the model is applied to the whole
population; in both cases the result is unconditionally re-evaluated and
re-sorted, and `Enhance` maps this worker over every (possibly migrated)
population. -/
theorem enhance_speciation :
    ∀ (model : Model G) (n : Int) (eval : G → ℚ) (dt : Nat) (pop : Population G),
      (∀ l, (model.Apply l).length = l.length) →
      (0 < n →
        (Population.evolve model n eval dt pop).Individuals =
          Individuals.SortAsc (Individuals.Evaluate eval
            (Species.merge ((pop.speciate n).map model.Apply))) ∧
        (pop.speciate n).length = n.toNat ∧
        (Population.evolve model n eval dt pop).Individuals.length
          = pop.Individuals.length) ∧
      (n = 0 →
        (Population.evolve model n eval dt pop).Individuals =
          Individuals.SortAsc (Individuals.Evaluate eval (model.Apply pop.Individuals)) ∧
        (Population.evolve model n eval dt pop).Individuals.length
          = pop.Individuals.length) ∧
      (∀ ga ga' : GA G, ga.Model = some model → ga.Topology.NSpecies = n →
        ga.Enhance eval dt = some ga' →
        ∃ pops, ga.migrationInput (ga.Generations + 1) = some pops ∧
          ga'.Populations = pops.map (Population.evolve model n eval dt)) := by
  intro model n eval dt pop hmodel
  refine ⟨fun hn => ⟨?_, speciate_count pop n, evolve_length model n eval dt pop hmodel⟩,
    fun hn => ⟨?_, evolve_length model n eval dt pop hmodel⟩, ?_⟩
  · simp only [Population.evolve, if_pos hn]
  · subst hn
    simp only [Population.evolve, if_neg (by omega : ¬(0:Int) < 0)]
  · intro ga ga' hm hn h
    obtain ⟨pops, model2, b, hmi, hm2, hb, rfl⟩ := Enhance_some ga ga' eval dt h
    rw [hm] at hm2
    obtain rfl := Option.some.inj hm2
    refine ⟨pops, hmi, ?_⟩
    show pops.map (Population.evolve model ga.Topology.NSpecies eval dt) =
      pops.map (Population.evolve model n eval dt)
    rw [hn]

/-- Witness for claim C8: splitting a concrete two-individual population
into two species, applying a count-preserving model, and merging leaves the
individual count unchanged. -/
theorem enhance_speciation_witness :
    (Population.evolve idModel 2 (fun q => q) 1 popA).Individuals.length
      = popA.Individuals.length :=
  ((enhance_speciation idModel 2 (fun q => q) 1 popA (fun _ => rfl)).1
    (by decide)).2.2

/-- Claim C3: for a valid topology (and a present genome factory),
`Initialize` succeeds and produces exactly `NPopulations` populations, each
with exactly `NIndividuals` individuals, every individual carrying the
fitness of evaluating its genome. -/
theorem initialize_populations :
    ∀ (ga : GA G) (eval : G → ℚ) (g0 g1 : Nat) (pe : Nat → Nat)
      (maker : GenomeMaker G),
      ga.MakeGenome = some maker →
      ga.Topology.Validate = none →
      ∃ ga', ga.Initialize eval g0 g1 pe = some ga' ∧
        ga'.Populations.length = ga.Topology.NPopulations.toNat ∧
        (∀ p ∈ ga'.Populations,
          p.Individuals.length = ga.Topology.NIndividuals.toNat) ∧
        (∀ p ∈ ga'.Populations, ∀ x ∈ p.Individuals,
          x.Fitness = eval x.Genome) := by
  intro ga eval g0 g1 pe maker hmk hvalid
  obtain ⟨h1, h2, h3⟩ := (Topology.Validate_eq_none_iff ga.Topology).mp hvalid
  have hprops := initPops_props ga.Topology maker eval pe
  have hne : ∀ p ∈ initPops ga.Topology maker eval pe, p.Individuals ≠ [] := by
    intro p hp hcon
    have hlen := (hprops.2 p hp).2.1
    rw [hcon] at hlen
    simp only [List.length_nil] at hlen
    omega
  obtain ⟨b, hb⟩ := bestScan_some _
    (MakeIndividual (maker (makeRandomNumberGenerator g1))) hne
  refine ⟨_, Initialize_eq ga eval g0 g1 pe maker b hmk (by omega) hb,
    hprops.1, fun p hp => (hprops.2 p hp).2.1,
    fun p hp x hx => (hprops.2 p hp).2.2.2 x hx⟩

/-- Witness for claim C3: a concrete valid GA initializes into two
populations of two evaluated individuals each. -/
theorem initialize_populations_witness :
    ∃ ga', ga0.Initialize (fun q => q) 0 0 (fun j => j) = some ga' ∧
      ga'.Populations.length = ga0.Topology.NPopulations.toNat := by
  obtain ⟨ga', h, hlen, _, _⟩ := initialize_populations ga0 (fun q => q) 0 0
    (fun j => j) (fun r => (r : ℚ)) rfl (by decide)
  exact ⟨ga', h, hlen⟩

/-- Claim C9: every `Enhance` call increments the GA's generation counter by
exactly one and every population's counter by exactly one, so after a single
`Initialize` of a fresh GA followed by any number of `Enhance` calls, every
population's counter equals the GA's counter. -/
theorem generation_lockstep :
    (∀ (ga ga' : GA G) (eval : G → ℚ) (dt : Nat),
      ga.Enhance eval dt = some ga' →
      ga'.Generations = ga.Generations + 1 ∧
      ga'.Populations.map (fun p => p.Generations) =
        ga.Populations.map fun p => p.Generations + 1) ∧
    (∀ (ga gaInit gN : GA G) (eval : G → ℚ) (g0 g1 : Nat) (pe : Nat → Nat)
        (dt n : Nat),
      ga.Generations = 0 →
      ga.Initialize eval g0 g1 pe = some gaInit →
      gaInit.EnhanceN eval dt n = some gN →
      gN.Generations = (n : Int) ∧
        ∀ p ∈ gN.Populations, p.Generations = gN.Generations) := by
  constructor
  · exact fun ga ga' eval dt h => Enhance_generations_step ga ga' eval dt h
  · intro ga gaInit gN eval g0 g1 pe dt n hgen hinit hN
    obtain ⟨maker, b, hmk, hnn, hb, rfl⟩ := Initialize_some ga gaInit eval g0 g1 pe hinit
    have hInv : ∀ p ∈ ({ ga with
          Populations := initPops ga.Topology maker eval pe
          rng := makeRandomNumberGenerator g0
          Best := b } : GA G).Populations,
        p.Generations = ({ ga with
          Populations := initPops ga.Topology maker eval pe
          rng := makeRandomNumberGenerator g0
          Best := b } : GA G).Generations := by
      intro p hp
      have hzero := ((initPops_props ga.Topology maker eval pe).2 p hp).1
      rw [hzero]
      show (0 : Int) = ga.Generations
      omega
    have haux := EnhanceN_lockstep_aux eval dt n _ gN hN hInv
    constructor
    · rw [haux.1]
      show ga.Generations + (n : Int) = (n : Int)
      omega
    · exact haux.2

/-- Witness for claim C9: initializing a fresh concrete GA and running one
`Enhance` leaves the GA's counter at one, in lockstep with every
population. -/
theorem generation_lockstep_witness :
    ∃ gaInit g1, ga0.Initialize (fun q => q) 0 0 (fun j => j) = some gaInit ∧
      gaInit.EnhanceN (fun q => q) 1 1 = some g1 ∧ g1.Generations = 1 := by
  have hs : ((ga0.Initialize (fun q => q) 0 0 fun j => j).bind
      fun g => g.EnhanceN (fun q => q) 1 1).isSome = true := by decide
  obtain ⟨g1, hg1⟩ := Option.isSome_iff_exists.mp hs
  obtain ⟨gaInit, h0, h1⟩ := Option.bind_eq_some.mp hg1
  have hlock := (generation_lockstep (G := ℚ)).2 ga0 gaInit g1 (fun q => q)
    0 0 (fun j => j) 1 1 rfl h0 h1
  refine ⟨gaInit, g1, h0, h1, ?_⟩
  rw [hlock.1]
  norm_num

/-- Claim C1 counterexample: for a GA whose single individual evaluates to
fitness 5, `Initialize` leaves the zero-fitness dummy as the best
individual — the dummy is not overwritten by the scan and the best fitness
differs from the minimum first-individual fitness. -/
theorem initialize_dummy_survives_cex :
    ((cexGA.Initialize (fun q => q) 0 0 fun _ => 0).map fun ga' =>
      (ga'.Best.Fitness, ga'.Populations.map firstFitness)) = some (0, [5]) ∧
    (0 : ℚ) ≠ 5 := by
  constructor
  · decide
  · decide

/-- Claim C1 (amended): after `Initialize` the best fitness equals the
minimum of the dummy's zero fitness and all first-individual fitnesses (the
dummy is only overwritten by a strictly negative first fitness); after
`Enhance` the best fitness equals the minimum of the previous best fitness
and all first-individual fitnesses, hence equals the minimum
first-individual fitness whenever that minimum is at least as good as the
previous best. -/
theorem best_fitness_min_scan :
    (∀ (ga ga' : GA G) (eval : G → ℚ) (g0 g1 : Nat) (pe : Nat → Nat),
      ga.Initialize eval g0 g1 pe = some ga' →
      ga'.Best.Fitness = minFirstFitness ga'.Populations 0) ∧
    (∀ (ga ga' : GA G) (eval : G → ℚ) (dt : Nat),
      ga.Enhance eval dt = some ga' →
      ga'.Best.Fitness = minFirstFitness ga'.Populations ga.Best.Fitness ∧
      ∀ q : ℚ, (∃ p ∈ ga'.Populations, firstFitness p = q) →
        (∀ p ∈ ga'.Populations, q ≤ firstFitness p) →
        q ≤ ga.Best.Fitness → ga'.Best.Fitness = q) := by
  constructor
  · intro ga ga' eval g0 g1 pe h
    obtain ⟨maker, b, hmk, hnn, hb, rfl⟩ := Initialize_some ga ga' eval g0 g1 pe h
    exact bestScan_fitness _ _ _ hb
  · intro ga ga' eval dt h
    obtain ⟨pops, model, b, hmi, hm, hb, rfl⟩ := Enhance_some ga ga' eval dt h
    have hfit := bestScan_fitness _ _ _ hb
    constructor
    · exact hfit
    · intro q hex hall hqb
      obtain ⟨p, hp, hpq⟩ := hex
      show b.Fitness = q
      rw [hfit]
      apply le_antisymm
      · rw [← hpq]
        exact minFirstFitness_le _ _ p hp
      · rcases minFirstFitness_cases
          (pops.map (Population.evolve model ga.Topology.NSpecies eval dt))
          ga.Best.Fitness with hc | ⟨p2, hp2, hc⟩
        · rw [hc]
          exact hqb
        · rw [hc]
          exact hall p2 hp2

/-- Witness for claim C1 (amended): a concrete `Initialize` whose best
fitness equals the minimum of the dummy fitness and the first-individual
fitnesses. -/
theorem best_fitness_min_scan_witness :
    ∃ ga', ga0.Initialize (fun q => q) 0 0 (fun j => j) = some ga' ∧
      ga'.Best.Fitness = minFirstFitness ga'.Populations 0 := by
  have hs : (ga0.Initialize (fun q => q) 0 0 fun j => j).isSome = true := by decide
  obtain ⟨ga', h⟩ := Option.isSome_iff_exists.mp hs
  exact ⟨ga', h, (best_fitness_min_scan (G := ℚ)).1 ga0 ga' (fun q => q) 0 0 (fun j => j) h⟩

end Gago
